import Mathlib

/-!
Verification of the SOP MCP server (`src/weather_mcp_server.py`): a shallow
embedding of the citation validator, the hybrid search fusion/ranking/enrichment
pipeline, the section reader, and the JSON-RPC dispatch loop, together with
theorems settling the frozen claims about them.

Python strings are modelled as `List Char`; floats as `ℚ`; fallible handler
code as `Except String-like` results; the stdin line stream as a list of
classified input lines (blank / malformed JSON / parsed request), since JSON
parsing itself happens in the Python standard library, outside the repository.
External collaborators that are not part of the source (the BM25 scorer, the
sentence-transformer encoder and the FAISS index, i.e. lines 134-150 of
`weather_mcp_server.py`) are modelled as oracle functions carried by the
resource store: they produce the lexical and dense candidate lists that the
in-repository fusion code consumes.
-/

namespace SOPMCP

/-- Python strings, modelled as lists of characters. -/
abbrev Str := List Char

/-- Membership in Python's whitespace class: the set of characters matched by
`\s` in `re` (for `str` patterns) and stripped by `str.strip()`. -/
def pyWs (c : Char) : Bool :=
  decide ((9 ≤ c.toNat ∧ c.toNat ≤ 13) ∨ (28 ≤ c.toNat ∧ c.toNat ≤ 32) ∨
    c.toNat = 133 ∨ c.toNat = 160 ∨ c.toNat = 5760 ∨
    (8192 ≤ c.toNat ∧ c.toNat ≤ 8202) ∨ c.toNat = 8232 ∨ c.toNat = 8233 ∨
    c.toNat = 8239 ∨ c.toNat = 8287 ∨ c.toNat = 12288)

/-- Lowercasing of one character, as `str.lower()` acts on ASCII letters. -/
def pyLower (c : Char) : Char :=
  if 65 ≤ c.toNat ∧ c.toNat ≤ 90 then Char.ofNat (c.toNat + 32) else c

/-- Lowercasing of a whole string (`s.lower()`). -/
def pyLowerL (s : Str) : Str := s.map pyLower

/-- Python `s.strip()`: remove leading and trailing whitespace. -/
def pyStrip (s : Str) : Str :=
  ((s.dropWhile pyWs).reverse.dropWhile pyWs).reverse

/-- Python substring containment `p in s`. -/
def pyIn (p s : Str) : Bool := decide (p <:+: s)

/-- Python slicing `l[:k]` for a possibly negative `k`. -/
def pyTake {α : Type} (l : List α) (k : Int) : List α :=
  l.take ((if 0 ≤ k then k else (l.length : Int) + k).toNat)

/-- Membership in the sentence-boundary punctuation class `[.!?]` of the
splitting regex in `cite_validate`. -/
def isPunct (c : Char) : Bool := c = '.' || c = '!' || c = '?'

/-- Engine of `re.split` for the pattern that splits after `[.!?]` followed by
whitespace: returns the fields and, alongside them, the whitespace separator
runs the regex consumed. The first argument is fuel, always called with at
least the length of the string; the accumulator holds the reversed current
field. -/
def splitWS : Nat → Str → Str → List Str × List Str
  | _, [], acc => ([acc.reverse], [])
  | 0, rest, acc => ([acc.reverse ++ rest], [])
  | fuel+1, c :: rest, acc =>
    match rest with
    | d :: _ =>
      if isPunct c && pyWs d then
        let w := rest.takeWhile pyWs
        let rest2 := rest.dropWhile pyWs
        let p := splitWS fuel rest2 []
        ((acc.reverse ++ [c]) :: p.1, w :: p.2)
      else splitWS fuel rest (c :: acc)
    | [] => splitWS fuel rest (c :: acc)

/-- Sentence segmentation of `cite_validate`, line 258 of the source:
`re.split` applied after `[.!?]` followed by whitespace. -/
def splitSentences (s : Str) : List Str := (splitWS s.length s []).1

/-- The whitespace runs removed by the sentence segmentation. -/
def splitSeps (s : Str) : List Str := (splitWS s.length s []).2

/-- Interleaving of fields and separators, used to state that segmentation
loses nothing but the matched separators. -/
def joinSS : List Str → List Str → Str
  | [], _ => []
  | s :: ss, [] => s ++ joinSS ss []
  | s :: ss, w :: ws => s ++ w ++ joinSS ss ws

/-- Result payload of `cite_validate`: coverage percentage and the per-sentence
details, in original sentence order. A detail entry pairs the sentence with its
`covered` flag. -/
structure ValidateResult where
  coverage_pct : ℚ
  details : List (Str × Bool)
deriving DecidableEq

/-- Coverage test of one sentence (lines 266-270 of the source): some anchor's
lowercase form occurs in the sentence's lowercase form, or the anchor starts
with `http` and occurs verbatim — mirroring the Python operator precedence
`a.lower() in s.lower() or (a.startswith("http") and a in s)`. -/
def coveredB (anchors : List Str) (s : Str) : Bool :=
  anchors.any (fun a =>
    pyIn (pyLowerL a) (pyLowerL s) || ("http".toList.isPrefixOf a && pyIn a s))

/-- Body of `cite_validate` (lines 255-277) for a present `text` argument:
sentence segmentation, anchor-set coverage, and the percentage with its
`max(1, ...)` denominator floor. `citations.dedup` models the Python `set`. -/
def cite_validate_core (text : Str) (citations : List Str) : ValidateResult :=
  let sentences := splitSentences (pyStrip text)
  let anchors := citations.dedup
  let coverage := sentences.map (fun s => (s, coveredB anchors s))
  let cov_pct : ℚ :=
    ((coverage.filter (fun c => c.2)).length : ℚ) /
      (max 1 coverage.length : ℚ) * 100
  ⟨cov_pct, coverage⟩

/-- The `cite.validate` handler. A `None` text (missing `text` argument) makes
`text.strip()` raise an `AttributeError`, modelled as the error case. -/
def cite_validate (text : Option Str) (citations : List Str) :
    Except Str ValidateResult :=
  match text with
  | none => .error "NoneType object has no attribute strip".toList
  | some t => .ok (cite_validate_core t citations)

/-- One document-table record; `sop_search` only consults `section_id`
(the other fields of the Python dict are never read by the server). -/
structure Meta where
  section_id : Str
deriving DecidableEq

/-- The context graph: nodes keyed by section id carrying an attribute
dictionary (modelled as an association list), plus directed edges. -/
structure KG where
  nodes : List (Str × List (Str × Str))
  edges : List (Str × Str)

/-- Whether the graph has a node with this id. -/
def hasNode (kg : KG) (sid : Str) : Bool := kg.nodes.any (fun n => n.1 == sid)

/-- `kg.nodes.get(sid)`: the attribute dictionary of a node, if present. -/
def nodeAttrs? (kg : KG) (sid : Str) : Option (List (Str × Str)) :=
  (kg.nodes.find? (fun n => n.1 == sid)).map (fun n => n.2)

/-- Dictionary lookup `attrs.get(key)`. -/
def attrGet (attrs : List (Str × Str)) (key : Str) : Option Str :=
  (attrs.find? (fun a => a.1 == key)).map (fun a => a.2)

/-- `list(kg.successors(sid))`: targets of outgoing edges, in edge order.
NetworkX raises when `sid` has no node; `addNeighbors` below models that. -/
def successors (kg : KG) (sid : Str) : List Str :=
  (kg.edges.filter (fun e => e.1 == sid)).map (fun e => e.2)

/-- The loaded resource store. `bm25_candidates` and `dense_candidates` stand
for the candidate lists produced from the query by the external BM25 scorer
and by the embedding model plus FAISS index (lines 134-150 of the source,
which call library code outside the repository): `(section_id, score)` pairs,
already cut to at most `k` per side. -/
structure Resources where
  doc_meta : List Meta
  kg : KG
  bm25_candidates : Str → Int → List (Str × ℚ)
  dense_candidates : Str → Int → List (Str × ℚ)

/-- One value of the `merged` dictionary during fusion. -/
structure Fused where
  sid : Str
  dense_score : ℚ
  bm25_score : ℚ
deriving DecidableEq

/-- The combined ranking key `x["dense_score"]*0.7 + x["bm25_score"]*0.3`. -/
def combined (f : Fused) : ℚ := f.dense_score * (7/10) + f.bm25_score * (3/10)

/-- Python dict assignment `merged[sid] = entry`: replace in place if the key
exists (insertion order kept), else append. -/
def setEntry : List Fused → Fused → List Fused
  | [], e => [e]
  | f :: fs, e => if f.sid = e.sid then e :: fs else f :: setEntry fs e

/-- In-place update `merged[sid]["bm25_score"] = score` of the first (unique)
entry with this key. -/
def updateFirst : List Fused → Str → ℚ → List Fused
  | [], _, _ => []
  | f :: fs, sid, sc =>
    if f.sid = sid then { f with bm25_score := sc } :: fs
    else f :: updateFirst fs sid sc

/-- One step of the BM25 merging loop (lines 156-160): update the dense entry
with the lexical score, or insert a lexical-only entry with `0.0` dense. -/
def addBm (m : List Fused) (p : Str × ℚ) : List Fused :=
  if m.any (fun f => f.sid = p.1) then updateFirst m p.1 p.2
  else m ++ [⟨p.1, 0, p.2⟩]

/-- The fusion of the two candidate lists (lines 152-160): the dense loop
populates the dictionary, then the BM25 loop fills or adds lexical scores. -/
def mergeCands (dense_cands bm25_candidates : List (Str × ℚ)) : List Fused :=
  let m := dense_cands.foldl (fun m p => setEntry m ⟨p.1, p.2, 0⟩) []
  bm25_candidates.foldl addBm m

/-- Descending order on the combined score; Python's stable `sorted` with
`reverse=True` is insertion sort under this relation. -/
def rGe (a b : Fused) : Prop := combined b ≤ combined a

instance : DecidableRel rGe := fun a b =>
  inferInstanceAs (Decidable (combined b ≤ combined a))

instance : IsTotal Fused rGe := ⟨fun a b => le_total (combined b) (combined a)⟩

instance : IsTrans Fused rGe := ⟨fun _ _ _ h h' => le_trans h' h⟩

/-- The ranking step `sorted(merged.values(), key=combined, reverse=True)`. -/
def rankMerged (m : List Fused) : List Fused := List.insertionSort rGe m

/-- One entry of the search output list. -/
structure SearchItem where
  section_id : Str
  excerpt : Str
  dense : ℚ
  bm25 : ℚ
  neighbors : List Str
deriving DecidableEq

/-- Excerpt enrichment of one surviving result (lines 168-176): if a document
record with this id exists, take the first 300 characters of the graph node's
text (`kg.nodes.get(sid, {})` tolerates a missing node), else leave the
excerpt empty. Neighbors are attached later. -/
def excerptItem (R : Resources) (f : Fused) : SearchItem :=
  let meta := R.doc_meta.find? (fun m => m.section_id == f.sid)
  let excerpt : Str :=
    match meta with
    | some _ => ((((nodeAttrs? R.kg f.sid).getD []).find?
        (fun a => a.1 == "text".toList)).map (fun a => a.2)).getD [] |>.take 300
    | none => []
  ⟨f.sid, excerpt, f.dense_score, f.bm25_score, []⟩

/-- The neighbor loop (lines 179-181): `kg.successors` raises a NetworkX
error at the first item whose id has no graph node; otherwise each item gets
its first three outgoing neighbor ids. -/
def addNeighbors (kg : KG) : List SearchItem → Except Str (List SearchItem)
  | [] => .ok []
  | it :: rest =>
    if hasNode kg it.section_id then
      match addNeighbors kg rest with
      | .ok rest2 =>
        .ok ({ it with neighbors := (successors kg it.section_id).take 3 } :: rest2)
      | .error e => .error e
    else .error ("The node is not in the digraph: ".toList ++ it.section_id)

/-- The `sop.search` pipeline for a present query (lines 132-181): fuse the
candidate lists, rank by combined score, keep the top `k`, enrich with
excerpts, then attach neighbors (which can raise). A `None` query makes
`query.split()` raise an `AttributeError`. -/
def sop_search_items (R : Resources) (query : Option Str) (k : Int) :
    Except Str (List SearchItem) :=
  match query with
  | none => .error "NoneType object has no attribute split".toList
  | some q =>
    let merged := mergeCands (R.dense_candidates q k) (R.bm25_candidates q k)
    let results := rankMerged merged
    let out := (pyTake results k).map (excerptItem R)
    addNeighbors R.kg out

/-- Result payload of `sop_read`: either the success message reporting an
unknown id, or the section fields verbatim from the node attributes. -/
inductive ReadResult where
  | notFound (msg : Str)
  | found (section_id : Str) (text : Str) (title sop sec : Option Str)
deriving DecidableEq

/-- The not-found message of `sop_read`. -/
def readMsg (sid : Str) : Str :=
  "Error: section_id ".toList ++ sid ++ " not found".toList

/-- The `sop.read` handler (lines 192-220). `if not node:` is Python
falsiness: both a missing node and a present node with an empty attribute
dictionary take the not-found branch. A `None` id is simply not a key of the
graph. -/
def sop_read (kg : KG) (section_id : Option Str) : ReadResult :=
  match section_id with
  | none => .notFound (readMsg "None".toList)
  | some sid =>
    match nodeAttrs? kg sid with
    | none => .notFound (readMsg sid)
    | some attrs =>
      if attrs.isEmpty then .notFound (readMsg sid)
      else
        .found sid ((attrGet attrs "text".toList).getD [])
          (attrGet attrs "title".toList) (attrGet attrs "sop".toList)
          (attrGet attrs "section".toList)

/-- The `web.search` handler reads an environment key and talks to an external
HTTPS API; both are outside the repository, so the model only records that the
call was routed there with these arguments. No claim concerns its payload. -/
inductive WebOut where
  | webCalled (query : Option Str) (k : Int)
deriving DecidableEq

/-- Payload of a successful tool call, one constructor per handler. -/
inductive ToolOut where
  | searchOut (query : Str) (results : List SearchItem)
  | readOut (r : ReadResult)
  | webOut (w : WebOut)
  | validateOut (v : ValidateResult)
deriving DecidableEq

/-- The `sop.search` handler including its response payload (query echoed). -/
def sop_search (R : Resources) (query : Option Str) (k : Int) :
    Except Str ToolOut :=
  (sop_search_items R query k).map (fun out =>
    .searchOut (query.getD []) out)

/-- Result member of a JSON-RPC success response. -/
inductive HRes where
  | toolsListR
  | initResult
  | toolR (t : ToolOut)
deriving DecidableEq

/-- Arguments of a `tools/call` request: each `arguments.get(...)` lookup,
with `none` for a missing key. -/
structure ToolArgs where
  query : Option Str := none
  k : Option Int := none
  section_id : Option Str := none
  text : Option Str := none
  citations : Option (List Str) := none
deriving DecidableEq

/-- A parsed JSON-RPC request line: the `id`, `method`, and the `params`
fields the dispatcher reads (`params.get('name')` and the arguments). -/
structure Request where
  id : Option Int := none
  method : Option Str := none
  name : Option Str := none
  arguments : ToolArgs := {}
deriving DecidableEq

/-- Body of a response: `result` or `error {code, message}`. -/
inductive RespBody where
  | ok (r : HRes)
  | err (code : Int) (msg : Str)
deriving DecidableEq

/-- A JSON-RPC response line with its echoed id. -/
structure Response where
  id : Option Int
  body : RespBody
deriving DecidableEq

/-- One line written to stdout: the parameterless `notifications/initialized`
notification (which carries no id), or a response. -/
inductive OutLine where
  | notif
  | resp (r : Response)
deriving DecidableEq

/-- One line read from stdin, classified as the loop classifies it: blank
(or end of stream), non-empty but not valid JSON (with the decoder message),
or a parsed request object. -/
inductive InputLine where
  | blank
  | malformed (e : Str)
  | request (r : Request)

/-- Printable rendering of an optional string, as Python interpolates it
(`None` for a missing value). -/
def optStr (o : Option Str) : Str := o.getD "None".toList

/-- Tool routing inside `tools/call` (lines 299-320): dispatch on the tool
name, passing each handler its `arguments.get(...)` values (`k` defaulting
to 5, `citations` to the empty list); an unknown name raises `ValueError`. -/
def callTool (R : Resources) (name : Option Str) (args : ToolArgs) :
    Except Str HRes :=
  if name = some "sop.search".toList then
    (sop_search R args.query (args.k.getD 5)).map .toolR
  else if name = some "sop.read".toList then
    .ok (.toolR (.readOut (sop_read R.kg args.section_id)))
  else if name = some "web.search".toList then
    .ok (.toolR (.webOut (.webCalled args.query (args.k.getD 5))))
  else if name = some "cite.validate".toList then
    (cite_validate args.text (args.citations.getD [])).map
      (fun v => .toolR (.validateOut v))
  else .error ("Unknown tool: ".toList ++ optStr name)

/-- `handle_request` (lines 288-353): routes the method, catching any handler
exception into a `-32000` error with the id echoed. The first component
collects the lines the handler itself prints: handling `initialize` prints
the `notifications/initialized` line from inside `handle_request`, before the
caller ever writes the response. -/
def handle_request (R : Resources) (req : Request) : List OutLine × Response :=
  let tryRes : List OutLine × Except Str HRes :=
    if req.method = some "tools/list".toList then ([], .ok .toolsListR)
    else if req.method = some "tools/call".toList then
      ([], callTool R req.name req.arguments)
    else if req.method = some "initialize".toList then ([.notif], .ok .initResult)
    else ([], .error ("Unknown method: ".toList ++ optStr req.method))
  match tryRes with
  | (outs, .ok r) => (outs, ⟨req.id, .ok r⟩)
  | (outs, .error e) => (outs, ⟨req.id, .err (-32000) e⟩)

/-- Output lines produced while serving one request: whatever the handler
printed, followed by the response line. -/
def handleLines (R : Resources) (req : Request) : List OutLine :=
  let p := handle_request R req
  p.1 ++ [.resp p.2]

/-- The serving loop `run` (lines 355-394) over a stream of classified input
lines: a blank line or end of stream breaks the loop silently; a non-JSON
line yields one parse-error response with a null id and the loop continues;
a request is handled and its lines are written in order. -/
def runLines (R : Resources) : List InputLine → List OutLine
  | [] => []
  | .blank :: _ => []
  | .malformed e :: rest =>
    .resp ⟨none, .err (-32700) ("Parse error: ".toList ++ e)⟩ :: runLines R rest
  | .request req :: rest => handleLines R req ++ runLines R rest

/-- An empty resource store, used to evaluate dispatcher behavior that does
not consult the loaded artifacts. -/
def R0 : Resources := ⟨[], ⟨[], []⟩, fun _ _ => [], fun _ _ => []⟩

/-- C1: handling an `initialize` request emits exactly one
`notifications/initialized` notification, but the code prints it from inside
`handle_request`, so on the wire the notification line comes BEFORE the
initialize response line, not after it as the claim (and the code's own
comment, line 330) state: serving the single request produces the
notification first and the response second. -/
theorem C1_notif_printed_before_response :
    runLines R0 [.request ⟨some 1, some "initialize".toList, none, {}⟩] =
      [.notif, .resp ⟨some 1, .ok .initResult⟩] := rfl

/-- C8: a non-empty input line that is not valid JSON yields exactly one
`-32700` error response with a null id and the loop continues; a blank line
or end of stream terminates the loop silently with no response written. -/
theorem C8_parse_error_nonfatal_blank_terminates :
    ∀ (R : Resources) (e : Str) (rest : List InputLine),
      runLines R (.malformed e :: rest) =
        .resp ⟨none, .err (-32700) ("Parse error: ".toList ++ e)⟩ ::
          runLines R rest ∧
      runLines R (.blank :: rest) = [] ∧ runLines R [] = [] := by
  intro R e rest
  exact ⟨rfl, rfl, rfl⟩

/-- C9: a `tools/call` of `sop.search` whose arguments omit `query` is not
rejected against the declared schema: the handler is invoked with a `None`
query, its `AttributeError` is caught at the dispatch boundary and returned
as a `-32000` error response with the request id echoed, and the serving
loop continues with the remaining input. -/
theorem C9_missing_query_reaches_handler :
    ∀ (R : Resources) (rid : Option Int) (k : Option Int) (sid t : Option Str)
      (cits : Option (List Str)) (rest : List InputLine),
      runLines R (.request ⟨rid, some "tools/call".toList,
          some "sop.search".toList, ⟨none, k, sid, t, cits⟩⟩ :: rest) =
        .resp ⟨rid, .err (-32000)
            "NoneType object has no attribute split".toList⟩ ::
          runLines R rest := by
  intro R rid k sid t cits rest
  rfl

/-- A graph whose only node has an empty attribute dictionary. -/
def kgEmptyAttrs : KG := ⟨[("X".toList, [])], []⟩

/-- C7 counterexample: the id `X` is present in the context graph, yet
`sop_read` reports it as not found, because `if not node:` also takes the
not-found branch on a present node whose attribute dictionary is empty —
the claim's "on a present id it returns {section_id, text, title, sop,
section}" fails on this input. -/
theorem C7_present_empty_node_reported_not_found :
    hasNode kgEmptyAttrs "X".toList = true ∧
    sop_read kgEmptyAttrs (some "X".toList) =
      .notFound (readMsg "X".toList) ∧
    sop_read kgEmptyAttrs (some "X".toList) ≠
      .found "X".toList [] none none none := by
  refine ⟨rfl, rfl, ?_⟩
  decide

/-- C7 amended: on an id absent from the context graph `sop_read` returns the
successful not-found result; on a present id it returns the section fields
verbatim from the node attributes provided the attribute dictionary is
non-empty, while a present node with an empty attribute dictionary is also
reported as not found. -/
theorem C7_read_found_iff_nonempty_attrs :
    ∀ (kg : KG) (sid : Str),
      (nodeAttrs? kg sid = none →
        sop_read kg (some sid) = .notFound (readMsg sid)) ∧
      (∀ attrs, nodeAttrs? kg sid = some attrs → attrs = [] →
        sop_read kg (some sid) = .notFound (readMsg sid)) ∧
      (∀ attrs, nodeAttrs? kg sid = some attrs → attrs ≠ [] →
        sop_read kg (some sid) =
          .found sid ((attrGet attrs "text".toList).getD [])
            (attrGet attrs "title".toList) (attrGet attrs "sop".toList)
            (attrGet attrs "section".toList)) := by
  intro kg sid
  refine ⟨fun h => ?_, fun attrs h he => ?_, fun attrs h hne => ?_⟩
  · simp only [sop_read, h]
  · subst he
    simp only [sop_read, h, List.isEmpty_nil, if_true]
  · have : attrs.isEmpty = false := by
      cases attrs with
      | nil => exact absurd rfl hne
      | cons a l => rfl
    simp [sop_read, h, this]

/-- A graph with one node carrying text and title attributes. -/
def kgFound : KG :=
  ⟨[("X".toList, [("text".toList, "T".toList), ("title".toList, "Ti".toList)])],
    []⟩

/-- Witness for the amended C7 theorem at a concrete graph: a present id with
a non-empty attribute dictionary is returned verbatim. -/
theorem C7_read_found_iff_nonempty_attrs_witness :
    sop_read kgFound (some "X".toList) =
      .found "X".toList
        ((attrGet [("text".toList, "T".toList),
            ("title".toList, "Ti".toList)] "text".toList).getD [])
        (attrGet [("text".toList, "T".toList),
            ("title".toList, "Ti".toList)] "title".toList)
        (attrGet [("text".toList, "T".toList),
            ("title".toList, "Ti".toList)] "sop".toList)
        (attrGet [("text".toList, "T".toList),
            ("title".toList, "Ti".toList)] "section".toList) :=
  (C7_read_found_iff_nonempty_attrs kgFound "X".toList).2.2
    [("text".toList, "T".toList), ("title".toList, "Ti".toList)]
    (by decide) (by decide)

/-- Interleaving the fields with the consumed separator runs reconstructs the
input: segmentation drops exactly the matched whitespace, nothing else. -/
theorem joinSS_splitWS : ∀ (fuel : Nat) (s acc : Str),
    joinSS (splitWS fuel s acc).1 (splitWS fuel s acc).2 = acc.reverse ++ s := by
  intro fuel
  induction fuel with
  | zero =>
    intro s acc
    cases s <;> simp [splitWS, joinSS]
  | succ n ih =>
    intro s acc
    cases s with
    | nil => simp [splitWS, joinSS]
    | cons c rest =>
      cases rest with
      | nil =>
        have := ih [] (c :: acc)
        simp only [splitWS] at this ⊢
        simpa using this
      | cons d rest2 =>
        cases hb : isPunct c && pyWs d with
        | true =>
          have hj := ih ((d :: rest2).dropWhile pyWs) []
          simp only [splitWS, hb, if_true, joinSS]
          simp only [List.reverse_nil, List.nil_append] at hj
          simp [hj, List.takeWhile_append_dropWhile]
        | false =>
          have hj := ih (d :: rest2) (c :: acc)
          simp only [splitWS, hb, Bool.false_eq_true, if_false] at hj ⊢
          rw [hj]
          simp

/-- Every separator run the segmentation removes is a non-empty run of
whitespace characters. -/
theorem splitWS_seps_ws : ∀ (fuel : Nat) (s acc w : Str),
    w ∈ (splitWS fuel s acc).2 → w ≠ [] ∧ ∀ ch ∈ w, pyWs ch = true := by
  intro fuel
  induction fuel with
  | zero =>
    intro s acc w hw
    cases s <;> simp [splitWS] at hw
  | succ n ih =>
    intro s acc w hw
    cases s with
    | nil => simp [splitWS] at hw
    | cons c rest =>
      cases rest with
      | nil => simp [splitWS] at hw
      | cons d rest2 =>
        cases hb : isPunct c && pyWs d with
        | true =>
          simp only [splitWS, hb, if_true, List.mem_cons] at hw
          rcases hw with hw | hw
          · subst hw
            have hd : pyWs d = true := by
              revert hb
              cases pyWs d <;> simp
            constructor
            · simp [List.takeWhile_cons_of_pos hd]
            · intro ch hch
              exact List.mem_takeWhile_imp hch
          · exact ih _ [] w hw
        | false =>
          simp only [splitWS, hb, Bool.false_eq_true, if_false] at hw
          exact ih _ (c :: acc) w hw

/-- If the string has no sentence boundary (no `[.!?]` character immediately
followed by whitespace), the segmentation returns it whole as a single
field. -/
theorem splitWS_no_boundary : ∀ (fuel : Nat) (s acc : Str),
    s.Chain' (fun a b => ¬(isPunct a = true ∧ pyWs b = true)) →
    splitWS fuel s acc = ([acc.reverse ++ s], []) := by
  intro fuel
  induction fuel with
  | zero =>
    intro s acc _
    cases s <;> simp [splitWS]
  | succ n ih =>
    intro s acc hc
    cases s with
    | nil => simp [splitWS]
    | cons c rest =>
      cases rest with
      | nil =>
        have := ih [] (c :: acc) trivial
        simp only [splitWS] at this ⊢
        simp only [this]
        simp
      | cons d rest2 =>
        rcases List.chain'_cons.mp hc with ⟨hcd, htail⟩
        have hb : (isPunct c && pyWs d) = false := by
          cases hP : isPunct c <;> cases hW : pyWs d <;> simp_all
        have := ih (d :: rest2) (c :: acc) htail
        simp only [splitWS, hb, Bool.false_eq_true, if_false, this]
        simp

/-- The strip of a string is a contiguous substring of it. -/
theorem pyStrip_contiguous (s : Str) : pyStrip s <:+: s := by
  have h1 : s.dropWhile pyWs <:+ s := List.dropWhile_suffix pyWs
  have h2 : ((s.dropWhile pyWs).reverse.dropWhile pyWs).reverse <+:
      s.dropWhile pyWs := by
    rw [← List.reverse_suffix, List.reverse_reverse]
    exact List.dropWhile_suffix pyWs
  exact h2.isInfix.trans h1.isInfix

/-- The detail entries of the validator are exactly the segmented sentences,
in order, each paired with its coverage flag. -/
theorem details_map_fst (t : Str) (cs : List Str) :
    (cite_validate_core t cs).details.map Prod.fst =
      splitSentences (pyStrip t) := by
  simp only [cite_validate_core, List.map_map]
  have hid : (Prod.fst ∘ fun s : Str => (s, coveredB cs.dedup s)) = id := rfl
  rw [hid, List.map_id]

/-- C3 counterexample: `re.split` on the empty string returns `[""]`, so
`validate("", [])` yields ONE detail entry (the empty sentence), not zero;
and with the empty string among the citations the empty sentence counts as
covered, so `validate("", [""])` has coverage 100, not 0. -/
theorem C3_empty_text_one_entry :
    (cite_validate_core [] []).details.length = 1 ∧
    (cite_validate_core [] [[]]).coverage_pct = 100 := by
  constructor
  · decide
  · have hd : (cite_validate_core [] [[]]).coverage_pct =
        ((([(([] : Str), true)].filter (fun c => c.2)).length : ℚ) /
          (max 1 1 : ℚ)) * 100 := by
      simp [cite_validate_core, splitSentences, pyStrip, splitWS, coveredB,
        pyIn, pyLowerL]
    rw [hd]
    norm_num

/-- C3 amended: `validate("", citations)` returns exactly one detail entry,
the empty sentence, uncovered, with `coverage_pct == 0.0` and no division
error — provided the empty string itself is not among the citations (an
empty anchor is a substring of every sentence and would make the entry
covered with coverage 100). -/
theorem C3_empty_text_amended :
    ∀ cs : List Str, [] ∉ cs →
      (cite_validate_core [] cs).details = [([], false)] ∧
      (cite_validate_core [] cs).coverage_pct = 0 := by
  intro cs h
  have hcov : coveredB cs.dedup [] = false := by
    rw [coveredB, List.any_eq_false]
    intro a ha
    have hane : a ≠ [] := fun he => h (he ▸ List.mem_dedup.mp ha)
    have h1 : pyLowerL a ≠ [] := by
      simpa [pyLowerL] using hane
    simp [pyIn, pyLowerL, List.infix_nil, h1, hane]
  constructor
  · simp [cite_validate_core, splitSentences, pyStrip, splitWS, hcov]
  · have hd : (cite_validate_core [] cs).coverage_pct =
        ((([(([] : Str), false)].filter (fun c => c.2)).length : ℚ) /
          (max 1 1 : ℚ)) * 100 := by
      simp [cite_validate_core, splitSentences, pyStrip, splitWS, hcov]
    rw [hd]
    norm_num

/-- Witness for the amended C3 theorem at the empty citation list. -/
theorem C3_empty_text_amended_witness :
    (cite_validate_core [] []).details = [([], false)] ∧
    (cite_validate_core [] []).coverage_pct = 0 :=
  C3_empty_text_amended [] (by decide)

/-- C6: a sentence is marked covered exactly when some citation's lowercase
form is a substring of the sentence's lowercase form, or some citation begins
with `http` and occurs verbatim (case-sensitively) in the sentence; and the
details list the segmented sentences in their original order. -/
theorem C6_covered_iff_anchor_match :
    ∀ (t : Str) (cs : List Str),
      (cite_validate_core t cs).details.map Prod.fst =
        splitSentences (pyStrip t) ∧
      ∀ p ∈ (cite_validate_core t cs).details,
        (p.2 = true ↔ ∃ c ∈ cs,
          pyLowerL c <:+: pyLowerL p.1 ∨
          ("http".toList.isPrefixOf c = true ∧ c <:+: p.1)) := by
  intro t cs
  refine ⟨details_map_fst t cs, ?_⟩
  intro p hp
  have hmem : ∃ s ∈ splitSentences (pyStrip t),
      (s, coveredB cs.dedup s) = p := by
    simpa [cite_validate_core] using hp
  obtain ⟨s, _, hps⟩ := hmem
  subst hps
  simp [coveredB, pyIn, List.mem_dedup]

/-- The text of the spec's positive validation example. -/
def vText : Str := "Procedure SOP-001::PROCEDURE applies.".toList

/-- The citation of the spec's positive validation example. -/
def vCit : Str := "SOP-001::PROCEDURE".toList

/-- Witness for C6 at the spec's example: the details carry the segmented
sentence, and the coverage criterion applied through the theorem marks it
covered. -/
theorem C6_covered_iff_anchor_match_witness :
    (cite_validate_core vText [vCit]).details.map Prod.fst =
      splitSentences (pyStrip vText) ∧
    ((vText, true) : Str × Bool).2 = true :=
  ⟨(C6_covered_iff_anchor_match vText [vCit]).1,
    ((C6_covered_iff_anchor_match vText [vCit]).2 (vText, true)
        (by decide)).mpr
      ⟨vCit, by decide, Or.inl (by decide)⟩⟩

/-- C10 counterexample: on `"A. B"` the validator returns the sentences
`["A.", "B"]`, whose concatenation is not the stripped input — the space
consumed by the boundary match is dropped, so the sentences do not partition
the stripped text. -/
theorem C10_separator_whitespace_dropped :
    (cite_validate_core "A. B".toList []).details.map Prod.fst =
      ["A.".toList, "B".toList] ∧
    ((cite_validate_core "A. B".toList []).details.map Prod.fst).flatten ≠
      pyStrip "A. B".toList := by
  constructor
  · decide
  · decide

/-- C10 amended: a non-empty text with no `[.!?]` character immediately
followed by whitespace yields exactly one detail entry, the whitespace-
stripped input; in general the returned sentences appear in order and
reconstruct the stripped text once re-interleaved with the non-empty
whitespace runs the boundary matches removed — only that separator
whitespace is dropped. -/
theorem C10_segmentation_partition :
    ∀ (t : Str) (cs : List Str),
      (t ≠ [] →
        t.Chain' (fun a b => ¬(isPunct a = true ∧ pyWs b = true)) →
        (cite_validate_core t cs).details.map Prod.fst = [pyStrip t]) ∧
      joinSS ((cite_validate_core t cs).details.map Prod.fst)
          (splitSeps (pyStrip t)) = pyStrip t ∧
      ∀ w ∈ splitSeps (pyStrip t), w ≠ [] ∧ ∀ ch ∈ w, pyWs ch = true := by
  intro t cs
  refine ⟨fun _ hc => ?_, ?_, ?_⟩
  · rw [details_map_fst]
    have hcs : (pyStrip t).Chain'
        (fun a b => ¬(isPunct a = true ∧ pyWs b = true)) :=
      hc.infix (pyStrip_contiguous t)
    rw [splitSentences, splitWS_no_boundary _ _ [] hcs]
    simp
  · rw [details_map_fst]
    have := joinSS_splitWS (pyStrip t).length (pyStrip t) []
    simpa [splitSentences, splitSeps] using this
  · intro w hw
    exact splitWS_seps_ws _ _ [] w hw

/-- Witness for C10 at a boundary-free text: one detail entry equal to the
stripped input. -/
theorem C10_segmentation_partition_witness :
    (cite_validate_core "hello".toList []).details.map Prod.fst =
      [pyStrip "hello".toList] :=
  (C10_segmentation_partition "hello".toList []).1 (by decide)
    (by simp [List.chain'_cons, isPunct, pyWs])

/-- When the neighbor loop succeeds, it returns exactly the input items, in
order, each with its first three outgoing neighbors attached. -/
theorem addNeighbors_ok : ∀ (kg : KG) (l out : List SearchItem),
    addNeighbors kg l = .ok out →
    out = l.map (fun it =>
      { it with neighbors := (successors kg it.section_id).take 3 }) := by
  intro kg l
  induction l with
  | nil =>
    intro out h
    simp only [addNeighbors, Except.ok.injEq] at h
    simp [← h]
  | cons it rest ih =>
    intro out h
    cases hn : hasNode kg it.section_id with
    | false => simp [addNeighbors, hn] at h
    | true =>
      simp only [addNeighbors, hn, if_true] at h
      cases hr : addNeighbors kg rest with
      | error e => rw [hr] at h; exact absurd h (by simp)
      | ok rest2 =>
        rw [hr] at h
        simp only [Except.ok.injEq] at h
        rw [← h, List.map_cons, ih rest2 hr]

/-- C4: whenever a `search(query, k)` call with `k ≥ 1` succeeds, the
returned result list has length at most `k` and is sorted in descending
order of the combined score `0.7*dense + 0.3*bm25`. -/
theorem C4_topk_sorted_by_combined :
    ∀ (R : Resources) (q : Str) (k : Int) (out : List SearchItem),
      1 ≤ k → sop_search_items R (some q) k = .ok out →
      (out.length : Int) ≤ k ∧
      out.Pairwise (fun a b =>
        b.dense * (7/10) + b.bm25 * (3/10) ≤
          a.dense * (7/10) + a.bm25 * (3/10)) := by
  intro R q k out hk h
  have hk0 : 0 ≤ k := le_trans (by norm_num) hk
  have hout := addNeighbors_ok R.kg _ out h
  set merged := mergeCands (R.dense_candidates q k) (R.bm25_candidates q k)
    with hm
  constructor
  · rw [hout, List.length_map, List.length_map]
    have h1 : (pyTake (rankMerged merged) k).length ≤ k.toNat := by
      rw [pyTake, if_pos hk0]
      exact List.length_take_le _ _
    calc ((pyTake (rankMerged merged) k).length : Int)
        ≤ (k.toNat : Int) := by exact_mod_cast h1
      _ = k := Int.toNat_of_nonneg hk0
  · have hs : (rankMerged merged).Pairwise rGe :=
      List.sorted_insertionSort rGe merged
    have ht : (pyTake (rankMerged merged) k).Pairwise rGe :=
      List.Pairwise.sublist (List.take_sublist _ _) hs
    rw [hout]
    rw [List.pairwise_map, List.pairwise_map]
    exact ht.imp (fun {a b} hab => hab)

/-- A resource store giving one dense candidate whose graph node exists. -/
def Rok : Resources :=
  ⟨[⟨"A".toList⟩],
    ⟨[("A".toList, [("text".toList, "hello".toList)])],
      [("A".toList, "B".toList)]⟩,
    fun _ _ => [], fun _ _ => [("A".toList, 1)]⟩

/-- The successful search output on `Rok`. -/
def outOk : List SearchItem :=
  [⟨"A".toList, "hello".toList, 1, 0, ["B".toList]⟩]

/-- Witness for C4 at a concrete store where the call succeeds. -/
theorem C4_topk_sorted_by_combined_witness :
    ((outOk.length : Int) ≤ 5 ∧
      outOk.Pairwise (fun a b =>
        b.dense * (7/10) + b.bm25 * (3/10) ≤
          a.dense * (7/10) + a.bm25 * (3/10))) :=
  C4_topk_sorted_by_combined Rok "q".toList 5 outOk (by norm_num) rfl

/-- The entries of the fusion dictionary carrying a given section id. -/
def msel (m : List Fused) (sid : Str) : List Fused :=
  m.filter (fun f => f.sid = sid)

/-- Dict assignment with a fresh key appends the entry. -/
theorem setEntry_not_mem : ∀ (m : List Fused) (e : Fused),
    (∀ x ∈ m, x.sid ≠ e.sid) → setEntry m e = m ++ [e] := by
  intro m e
  induction m with
  | nil => intro _; rfl
  | cons f fs ih =>
    intro h
    have hf : f.sid ≠ e.sid := h f (List.mem_cons_self f fs)
    simp only [setEntry, if_neg hf, List.cons_append, List.cons.injEq, true_and]
    exact ih (fun x hx => h x (List.mem_cons_of_mem f hx))

/-- The dense loop over key-distinct candidates disjoint from the
accumulator just appends one dense-only entry per candidate. -/
theorem denseFold_eq_map : ∀ (dense : List (Str × ℚ)) (acc : List Fused),
    (dense.map Prod.fst).Nodup →
    (∀ x ∈ acc, x.sid ∉ dense.map Prod.fst) →
    dense.foldl (fun m p => setEntry m ⟨p.1, p.2, 0⟩) acc =
      acc ++ dense.map (fun p => ⟨p.1, p.2, 0⟩) := by
  intro dense
  induction dense with
  | nil => intro acc _ _; simp
  | cons p ps ih =>
    intro acc hnd hdisj
    have hfresh : ∀ x ∈ acc, x.sid ≠ (⟨p.1, p.2, (0:ℚ)⟩ : Fused).sid := by
      intro x hx
      have := hdisj x hx
      simp only [List.map_cons, List.mem_cons] at this
      exact fun he => this (Or.inl he)
    have hstep : setEntry acc ⟨p.1, p.2, 0⟩ = acc ++ [⟨p.1, p.2, 0⟩] :=
      setEntry_not_mem acc _ hfresh
    have hnd' : (ps.map Prod.fst).Nodup := by
      simp only [List.map_cons, List.nodup_cons] at hnd
      exact hnd.2
    have hp1 : p.1 ∉ ps.map Prod.fst := by
      simp only [List.map_cons, List.nodup_cons] at hnd
      exact hnd.1
    have hdisj' : ∀ x ∈ acc ++ [⟨p.1, p.2, (0:ℚ)⟩], x.sid ∉ ps.map Prod.fst := by
      intro x hx
      rcases List.mem_append.mp hx with hx | hx
      · have := hdisj x hx
        simp only [List.map_cons, List.mem_cons] at this
        exact fun he => this (Or.inr he)
      · simp only [List.mem_singleton] at hx
        subst hx
        exact hp1
    calc (p :: ps).foldl (fun m q => setEntry m ⟨q.1, q.2, 0⟩) acc
        = ps.foldl (fun m q => setEntry m ⟨q.1, q.2, 0⟩)
            (acc ++ [⟨p.1, p.2, 0⟩]) := by rw [List.foldl_cons, hstep]
      _ = (acc ++ [⟨p.1, p.2, 0⟩]) ++ ps.map (fun q => ⟨q.1, q.2, 0⟩) :=
          ih _ hnd' hdisj'
      _ = acc ++ (p :: ps).map (fun q => ⟨q.1, q.2, 0⟩) := by simp

/-- Selecting a key from the image of the dense loop over key-distinct
candidates yields exactly the entry built from that candidate. -/
theorem msel_map_mk : ∀ (dense : List (Str × ℚ)) (sid : Str) (ds : ℚ),
    (dense.map Prod.fst).Nodup → (sid, ds) ∈ dense →
    msel (dense.map (fun p => ⟨p.1, p.2, 0⟩)) sid = [⟨sid, ds, 0⟩] := by
  intro dense
  induction dense with
  | nil => intro sid ds _ h; exact absurd h (List.not_mem_nil _)
  | cons p ps ih =>
    intro sid ds hnd hmem
    simp only [List.map_cons, List.nodup_cons] at hnd
    rcases List.mem_cons.mp hmem with he | hm
    · subst he
      have hrest : msel (ps.map (fun p => ⟨p.1, p.2, 0⟩)) sid = [] := by
        rw [msel, List.filter_eq_nil_iff]
        intro x hx
        rcases List.mem_map.mp hx with ⟨q, hq, hxq⟩
        subst hxq
        simp only [decide_eq_true_eq]
        intro he
        have hq1 : q.1 ∈ ps.map Prod.fst := List.mem_map_of_mem Prod.fst hq
        rw [he] at hq1
        exact hnd.1 hq1
      simp [msel, List.filter_cons, hrest] at hrest ⊢
      exact hrest
    · have hne : p.1 ≠ sid := by
        intro he
        have hsid : sid ∈ ps.map Prod.fst := List.mem_map_of_mem Prod.fst hm
        rw [he] at hnd
        exact hnd.1 hsid
      have := ih sid ds hnd.2 hm
      simpa [msel, List.filter_cons, hne] using this

/-- A key absent from the candidates selects nothing from the dense image. -/
theorem msel_map_mk_absent : ∀ (dense : List (Str × ℚ)) (sid : Str),
    sid ∉ dense.map Prod.fst →
    msel (dense.map (fun p => ⟨p.1, p.2, 0⟩)) sid = [] := by
  intro dense sid h
  rw [msel, List.filter_eq_nil_iff]
  intro x hx
  rcases List.mem_map.mp hx with ⟨q, hq, hxq⟩
  subst hxq
  simp only [decide_eq_true_eq]
  intro he
  exact h (he ▸ List.mem_map_of_mem Prod.fst hq)

/-- Updating the unique entry under a key rewrites its lexical score in
place. -/
theorem msel_updateFirst : ∀ (m : List Fused) (sid : Str) (sc : ℚ) (e : Fused),
    msel m sid = [e] →
    msel (updateFirst m sid sc) sid = [{ e with bm25_score := sc }] := by
  intro m
  induction m with
  | nil => intro sid sc e h; simp [msel] at h
  | cons f fs ih =>
    intro sid sc e h
    by_cases hf : f.sid = sid
    · rw [msel, List.filter_cons, if_pos (by simpa using hf)] at h
      simp only [List.cons.injEq] at h
      have hrest : (fs.filter (fun g => decide (g.sid = sid))) = [] := h.2
      rw [updateFirst, if_pos hf, msel, List.filter_cons,
        if_pos (by simpa using hf), hrest, ← h.1]
    · rw [msel, List.filter_cons, if_neg (by simpa using hf)] at h
      rw [updateFirst, if_neg hf, msel, List.filter_cons,
        if_neg (by simpa using hf)]
      exact ih sid sc e h

/-- Updating some other key leaves the entries under this key unchanged. -/
theorem msel_updateFirst_other : ∀ (m : List Fused) (key sid : Str) (sc : ℚ),
    key ≠ sid → msel (updateFirst m key sc) sid = msel m sid := by
  intro m key sid sc hne
  induction m with
  | nil => rfl
  | cons f fs ih =>
    by_cases hf : f.sid = key
    · have hfsid : ¬ (f.sid = sid) := by rw [hf]; exact hne
      rw [updateFirst, if_pos hf, msel, List.filter_cons, msel,
        List.filter_cons]
      rw [if_neg (by simpa using hfsid), if_neg (by simpa using hfsid)]
    · rw [updateFirst, if_neg hf, msel, List.filter_cons, msel,
        List.filter_cons]
      by_cases hfsid : f.sid = sid
      · rw [if_pos (by simpa using hfsid), if_pos (by simpa using hfsid)]
        exact congrArg (f :: ·) ih
      · rw [if_neg (by simpa using hfsid), if_neg (by simpa using hfsid)]
        exact ih

/-- If the dictionary holds an entry under the key, the membership test of
the BM25 loop succeeds. -/
theorem any_of_msel : ∀ (m : List Fused) (sid : Str) (e : Fused),
    msel m sid = [e] → (m.any (fun f => f.sid = sid)) = true := by
  intro m sid e h
  have : e ∈ m.filter (fun f => decide (f.sid = sid)) := by
    rw [show m.filter (fun f => decide (f.sid = sid)) = msel m sid from rfl, h]
    exact List.mem_singleton_self e
  rcases List.mem_filter.mp this with ⟨hm, hsid⟩
  exact List.any_eq_true.mpr ⟨e, hm, hsid⟩

/-- If the dictionary holds nothing under the key, the membership test of the
BM25 loop fails. -/
theorem any_of_msel_nil : ∀ (m : List Fused) (sid : Str),
    msel m sid = [] → (m.any (fun f => f.sid = sid)) = false := by
  intro m sid h
  rw [List.any_eq_false]
  intro f hf
  intro hdec
  have : f ∈ m.filter (fun g => decide (g.sid = sid)) :=
    List.mem_filter.mpr ⟨hf, hdec⟩
  rw [show m.filter (fun g => decide (g.sid = sid)) = msel m sid from rfl,
    h] at this
  exact absurd this (List.not_mem_nil f)

/-- One BM25 step under a different key preserves the selection. -/
theorem msel_addBm_other : ∀ (m : List Fused) (p : Str × ℚ) (sid : Str),
    p.1 ≠ sid → msel (addBm m p) sid = msel m sid := by
  intro m p sid hne
  rw [addBm]
  by_cases hany : (m.any (fun f => f.sid = p.1)) = true
  · rw [if_pos hany]
    exact msel_updateFirst_other m p.1 sid p.2 hne
  · rw [if_neg hany, msel, List.filter_append]
    have : ([(⟨p.1, 0, p.2⟩ : Fused)].filter (fun f => decide (f.sid = sid))) = [] := by
      simp [hne]
    rw [this, List.append_nil]
    rfl

/-- The whole BM25 loop leaves keys it never mentions untouched. -/
theorem msel_bmFold_absent : ∀ (bm : List (Str × ℚ)) (m : List Fused)
    (sid : Str), sid ∉ bm.map Prod.fst →
    msel (bm.foldl addBm m) sid = msel m sid := by
  intro bm
  induction bm with
  | nil => intro m sid _; rfl
  | cons p ps ih =>
    intro m sid h
    simp only [List.map_cons, List.mem_cons, not_or] at h
    rw [List.foldl_cons, ih _ sid h.2,
      msel_addBm_other m p sid (fun he => h.1 he.symm)]

/-- The BM25 loop over key-distinct candidates rewrites the lexical score of
an existing dense entry in place. -/
theorem msel_bmFold_update : ∀ (bm : List (Str × ℚ)) (m : List Fused)
    (sid : Str) (bs : ℚ) (e : Fused),
    (bm.map Prod.fst).Nodup → (sid, bs) ∈ bm → msel m sid = [e] →
    msel (bm.foldl addBm m) sid = [{ e with bm25_score := bs }] := by
  intro bm
  induction bm with
  | nil => intro m sid bs e _ h _; exact absurd h (List.not_mem_nil _)
  | cons p ps ih =>
    intro m sid bs e hnd hmem hsel
    simp only [List.map_cons, List.nodup_cons] at hnd
    rcases List.mem_cons.mp hmem with he | hm
    · subst he
      have habs : sid ∉ ps.map Prod.fst := hnd.1
      rw [List.foldl_cons, addBm, if_pos (any_of_msel m sid e hsel)]
      rw [msel_bmFold_absent ps _ sid habs]
      exact msel_updateFirst m sid bs e hsel
    · have hne : p.1 ≠ sid := by
        intro he
        have : sid ∈ ps.map Prod.fst := List.mem_map_of_mem Prod.fst hm
        rw [he] at hnd
        exact hnd.1 this
      rw [List.foldl_cons]
      exact ih _ sid bs e hnd.2 hm
        (by rw [msel_addBm_other m p sid hne]; exact hsel)

/-- The BM25 loop over key-distinct candidates appends a lexical-only entry
with a zero dense score for a key the dense pass never produced. -/
theorem msel_bmFold_new : ∀ (bm : List (Str × ℚ)) (m : List Fused)
    (sid : Str) (bs : ℚ),
    (bm.map Prod.fst).Nodup → (sid, bs) ∈ bm → msel m sid = [] →
    msel (bm.foldl addBm m) sid = [⟨sid, 0, bs⟩] := by
  intro bm
  induction bm with
  | nil => intro m sid bs _ h _; exact absurd h (List.not_mem_nil _)
  | cons p ps ih =>
    intro m sid bs hnd hmem hsel
    simp only [List.map_cons, List.nodup_cons] at hnd
    rcases List.mem_cons.mp hmem with he | hm
    · subst he
      rw [List.foldl_cons, addBm, if_neg (by
        rw [any_of_msel_nil m sid hsel]; simp)]
      rw [msel_bmFold_absent ps _ sid hnd.1, msel, List.filter_append]
      have h1 : (m.filter (fun f => decide (f.sid = sid))) = [] := hsel
      have h2 : ([(⟨sid, 0, bs⟩ : Fused)].filter
          (fun f => decide (f.sid = sid))) = [⟨sid, 0, bs⟩] := by
        simp
      rw [h1, h2, List.nil_append]
    · have hne : p.1 ≠ sid := by
        intro he
        have : sid ∈ ps.map Prod.fst := List.mem_map_of_mem Prod.fst hm
        rw [he] at hnd
        exact hnd.1 this
      rw [List.foldl_cons]
      exact ih _ sid bs hnd.2 hm
        (by rw [msel_addBm_other m p sid hne]; exact hsel)

/-- C5: under key-distinct candidate sets, a section id present in both the
dense and the lexical candidates appears exactly once in the fused
dictionary, carrying its dense and its lexical score; an id present on one
side only appears exactly once with `0.0` recorded for the missing side. -/
theorem C5_fusion_union :
    ∀ (dense bm : List (Str × ℚ)) (sid : Str),
      (dense.map Prod.fst).Nodup → (bm.map Prod.fst).Nodup →
      (∀ ds bs, (sid, ds) ∈ dense → (sid, bs) ∈ bm →
        msel (mergeCands dense bm) sid = [⟨sid, ds, bs⟩]) ∧
      (∀ ds, (sid, ds) ∈ dense → sid ∉ bm.map Prod.fst →
        msel (mergeCands dense bm) sid = [⟨sid, ds, 0⟩]) ∧
      (∀ bs, (sid, bs) ∈ bm → sid ∉ dense.map Prod.fst →
        msel (mergeCands dense bm) sid = [⟨sid, 0, bs⟩]) := by
  intro dense bm sid hd hb
  have hfold : dense.foldl (fun m p => setEntry m ⟨p.1, p.2, 0⟩) [] =
      dense.map (fun p => ⟨p.1, p.2, 0⟩) :=
    denseFold_eq_map dense [] hd (by simp)
  refine ⟨fun ds bs hds hbs => ?_, fun ds hds habs => ?_, fun bs hbs habs => ?_⟩
  · rw [mergeCands, hfold]
    exact msel_bmFold_update bm _ sid bs ⟨sid, ds, 0⟩ hb hbs
      (msel_map_mk dense sid ds hd hds)
  · rw [mergeCands, hfold]
    rw [msel_bmFold_absent bm _ sid habs]
    exact msel_map_mk dense sid ds hd hds
  · rw [mergeCands, hfold]
    exact msel_bmFold_new bm _ sid bs hb hbs (msel_map_mk_absent dense sid habs)

/-- Witness for C5 at concrete candidates: `A` occurs on both sides and is
fused once with both scores; `B` is lexical-only with zero dense score. -/
theorem C5_fusion_union_witness :
    msel (mergeCands [("A".toList, (1:ℚ))]
        [("A".toList, (2:ℚ)), ("B".toList, (3:ℚ))]) "A".toList =
      [⟨"A".toList, 1, 2⟩] ∧
    msel (mergeCands [("A".toList, (1:ℚ))]
        [("A".toList, (2:ℚ)), ("B".toList, (3:ℚ))]) "B".toList =
      [⟨"B".toList, 0, 3⟩] :=
  ⟨(C5_fusion_union [("A".toList, 1)] [("A".toList, 2), ("B".toList, 3)]
      "A".toList (by simp) (by simp)).1 1 2 (by simp) (by simp),
    (C5_fusion_union [("A".toList, 1)] [("A".toList, 2), ("B".toList, 3)]
      "B".toList (by simp) (by simp)).2.2 3 (by simp) (by simp)⟩

/-- If any enriched item's id has no node in the context graph, the neighbor
loop raises (at the first such item) instead of producing a result. -/
theorem addNeighbors_error : ∀ (kg : KG) (l : List SearchItem),
    (∃ it ∈ l, hasNode kg it.section_id = false) →
    ∃ msg, addNeighbors kg l = .error msg := by
  intro kg l
  induction l with
  | nil =>
    rintro ⟨it, hit, _⟩
    exact absurd hit (List.not_mem_nil it)
  | cons it rest ih =>
    rintro ⟨x, hx, hnx⟩
    cases hn : hasNode kg it.section_id with
    | false =>
      refine ⟨"The node is not in the digraph: ".toList ++ it.section_id, ?_⟩
      rw [addNeighbors, hn]
      simp
    | true =>
      rcases List.mem_cons.mp hx with he | hm
      · subst he
        rw [hn] at hnx
        exact absurd hnx (by simp)
      · obtain ⟨msg, hmsg⟩ := ih ⟨x, hm, hnx⟩
        refine ⟨msg, ?_⟩
        rw [addNeighbors, hn]
        simp [hmsg]

/-- A resource store with one dense candidate `A` present in the document
table but absent from the context graph. -/
def Rmiss : Resources :=
  ⟨[⟨"A".toList⟩], ⟨[], []⟩, fun _ _ => [], fun _ _ => [("A".toList, 1)]⟩

/-- C2 counterexample: on `Rmiss` the id `A` survives fusion and has no graph
node; the claim says the call still succeeds with an empty excerpt and the
neighbor list, but the code's `kg.successors` raises and the whole call
returns an error. -/
theorem C2_missing_node_errors_concretely :
    (∃ f ∈ pyTake (rankMerged (mergeCands
        (Rmiss.dense_candidates "q".toList 5)
        (Rmiss.bm25_candidates "q".toList 5))) 5,
      f.sid = "A".toList ∧ hasNode Rmiss.kg f.sid = false) ∧
    sop_search_items Rmiss (some "q".toList) 5 =
      .error ("The node is not in the digraph: A".toList) := by
  constructor
  · exact ⟨⟨"A".toList, 1, 0⟩, by decide, by decide, by decide⟩
  · rfl

/-- C2 amended: a surviving fused result whose section id has no node in the
context graph does NOT leave the call successful: the neighbor lookup raises
and the whole `search` call returns an error (only the excerpt lookup
tolerates the missing node). -/
theorem C2_missing_node_turns_call_into_error :
    ∀ (R : Resources) (q : Str) (k : Int),
      (∃ f ∈ pyTake (rankMerged (mergeCands (R.dense_candidates q k)
          (R.bm25_candidates q k))) k, hasNode R.kg f.sid = false) →
      ∃ msg, sop_search_items R (some q) k = .error msg := by
  rintro R q k ⟨f, hf, hn⟩
  show ∃ msg, addNeighbors R.kg ((pyTake (rankMerged (mergeCands
      (R.dense_candidates q k) (R.bm25_candidates q k))) k).map
        (excerptItem R)) = .error msg
  exact addNeighbors_error R.kg _
    ⟨excerptItem R f, List.mem_map_of_mem (excerptItem R) hf, hn⟩

/-- Witness for the amended C2 theorem on the concrete store `Rmiss`. -/
theorem C2_missing_node_turns_call_into_error_witness :
    ∃ msg, sop_search_items Rmiss (some "q".toList) 5 = .error msg :=
  C2_missing_node_turns_call_into_error Rmiss "q".toList 5
    ⟨⟨"A".toList, 1, 0⟩, by decide, by decide⟩

end SOPMCP
